import Mathlib

/-!
Verification of the GW detectability engine in `aCOSMIC/GW_calcs.py`.

The Python module computes, for a catalog of binary star systems, the LISA
signal-to-noise ratio (`LISA_SNR`), the per-source power spectral density
(`LISA_PSD`), and a binned confusion foreground (`compute_foreground`),
using the Peters-Mathews harmonic decomposition (`peters_gfac`).

Shallow embedding conventions:
* floating-point numbers are modelled as real numbers (`ℝ`) for the strain /
  SNR pipeline; the arithmetic of `compute_foreground` involves only field
  operations and comparisons on decimal constants, so it is embedded over `ℚ`
  to keep it executable;
* the external noise-curve model `lisa_sensitivity.lisa_root_psd()` and the
  Bessel function `scipy.special.jv` are external collaborators and appear as
  explicit function parameters `noise : ℝ → ℝ` and `J : ℤ → ℝ → ℝ`;
* the input catalog (a pandas DataFrame) is a `List Binary`; output frames
  are lists of pairs, in row order;
* the eccentric branch of `LISA_PSD` references the names `h_0_squared_ecc`
  and `GW_freq_flat` which are not defined in that function's scope, so any
  catalog containing an eccentric source makes it raise a `NameError`; the
  embedding returns `Option`, with `none` for that failure;
* `compute_foreground` assigns a new column to its input frame
  (`psd_dat['digits'] = binIndices`), so it is embedded state-passing style,
  returning the updated frame together with the result.
-/

namespace GW

/-- Gravitational constant, from `GW_calcs.py` line 35 (`G = 6.67384e-11`). -/
noncomputable def G : ℝ := 6.67384e-11

/-- Speed of light, from `GW_calcs.py` line 36 (`c = 2.99792458e8`). -/
noncomputable def c : ℝ := 2.99792458e8

/-- `m_chirp(m1, m2) = (m1*m2)**(3./5.)/(m1+m2)**(1./5.)` (line 65).
Python float exponents are modelled by `Real.rpow`. -/
noncomputable def m_chirp (m1 m2 : ℝ) : ℝ :=
  (m1 * m2) ^ ((3 : ℝ) / 5) / (m1 + m2) ^ ((1 : ℝ) / 5)

/-- `peak_gw_freq` (lines 90-95):
`sep_m = (G/(4*np.pi**2)*porb**2*(m1+m2))**(1./3.)` and
`f_gw_peak = ((G*(m1+m2))**0.5/np.pi) * (1+ecc)**1.1954/(sep_m*(1-ecc)**2)**1.5`. -/
noncomputable def peak_gw_freq (m1 m2 ecc porb : ℝ) : ℝ :=
  let sep_m := (G / (4 * Real.pi ^ 2) * porb ^ 2 * (m1 + m2)) ^ ((1 : ℝ) / 3)
  (G * (m1 + m2)) ^ ((0.5 : ℝ)) / Real.pi * (1 + ecc) ^ ((1.1954 : ℝ)) /
    (sep_m * (1 - ecc) ^ 2) ^ ((1.5 : ℝ))

/-- The body of the loop of `peters_gfac` (lines 115-121), for one harmonic
index `n`: the Peters-Mathews factor `g_n/n²`, built from Bessel functions
`J` of the first kind (`scipy.special.jv`, order may be negative). -/
noncomputable def peters_g (J : ℤ → ℝ → ℝ) (ecc : ℝ) (n : ℕ) : ℝ :=
  ((n : ℝ) ^ 4 / 32) *
    ((J ((n : ℤ) - 2) ((n : ℝ) * ecc) - 2 * ecc * J ((n : ℤ) - 1) ((n : ℝ) * ecc) +
        2 / (n : ℝ) * J (n : ℤ) ((n : ℝ) * ecc) + 2 * ecc * J ((n : ℤ) + 1) ((n : ℝ) * ecc) -
        J ((n : ℤ) + 2) ((n : ℝ) * ecc)) ^ 2 +
      (1 - ecc ^ 2) *
        (J ((n : ℤ) - 2) ((n : ℝ) * ecc) - 2 * J (n : ℤ) ((n : ℝ) * ecc) +
          J ((n : ℤ) + 2) ((n : ℝ) * ecc)) ^ 2 +
      4 / (3 * (n : ℝ) ^ 2) * J (n : ℤ) ((n : ℝ) * ecc) ^ 2) /
    (n : ℝ) ^ 2

/-- `peters_gfac(ecc, n_harmonic)` (lines 97-123): the list of `g_n/n²` for
`n in range(1, n_harmonic)`, i.e. harmonics `n = 1 .. n_harmonic-1`. -/
noncomputable def peters_gfac (J : ℤ → ℝ → ℝ) (ecc : ℝ) (n_harmonic : ℕ) : List ℝ :=
  (List.range' 1 (n_harmonic - 1)).map (fun n => peters_g J ecc n)

/-- One row of the input catalog: columns `m1, m2, porb, ecc, dist` in SI
units (spec section 3, "Binary"). -/
structure Binary where
  m1 : ℝ
  m2 : ℝ
  porb : ℝ
  ecc : ℝ
  dist : ℝ

/-- The characteristic strain of `LISA_SNR` lines 165-166 (identical in
`LISA_PSD` lines 239-240):
`h_0 = 8*G/c**2*(mChirp)/(dist)*(G/c**3*2*np.pi*(1/(porb))*mChirp)**(2./3.)`. -/
noncomputable def h_0 (m1 m2 porb dist : ℝ) : ℝ :=
  8 * G / c ^ 2 * m_chirp m1 m2 / dist *
    (G / c ^ 3 * 2 * Real.pi * (1 / porb) * m_chirp m1 m2) ^ ((2 : ℝ) / 3)

/-- `LISA_SNR` lines 165-167 compute `h_0` by plain numpy arithmetic with no
validation of `m1, m2, porb, dist` and no `raise` statement: the computation
never signals an error, whatever the inputs.  Embedded as an `Except` that,
mirroring the code, always returns `Except.ok`. -/
noncomputable def strain_checked (m1 m2 porb dist : ℝ) : Except String ℝ :=
  Except.ok (h_0 m1 m2 porb dist)

/-- The per-source SNR value stored in the `SNR` vector of `LISA_SNR`:
circular sources (`ecc <= 0.1`, line 175) get
`h_0**2 * 1/4 * Tobs / LISA_psd(2/porb)**2` (note: no square root is taken),
eccentric sources (`ecc > 0.1`, lines 178-188) get
`(sum over n in range(1, n_harmonic) of h_0**2*Tobs*g_n/LISA_psd(n/porb)**2)**0.5`.
`x ** 0.5` agrees with `Real.sqrt x` for every real `x`
(`Real.sqrt_eq_rpow`). -/
noncomputable def sourceSNR (noise : ℝ → ℝ) (J : ℤ → ℝ → ℝ) (n_harmonic : ℕ) (Tobs : ℝ)
    (b : Binary) : ℝ :=
  if 0.1 < b.ecc then
    Real.sqrt (∑ n ∈ Finset.Ico 1 n_harmonic,
      h_0 b.m1 b.m2 b.porb b.dist ^ 2 * Tobs * peters_g J b.ecc n /
        noise ((n : ℝ) / b.porb) ^ 2)
  else
    h_0 b.m1 b.m2 b.porb b.dist ^ 2 * (1 / 4) * Tobs / noise (2 / b.porb) ^ 2

/-- The per-source frequency stored in the `gw_freq` vector of `LISA_SNR`:
`2/porb` for circular sources (line 176), `peak_gw_freq` for eccentric
sources (line 189). -/
noncomputable def sourceFreq (b : Binary) : ℝ :=
  if 0.1 < b.ecc then peak_gw_freq b.m1 b.m2 b.ecc b.porb else 2 / b.porb

/-- `SNR_dat` as built on line 190: one `(gw_freq, SNR)` row per catalog
source, in catalog order. -/
noncomputable def LISA_SNR_rows (noise : ℝ → ℝ) (J : ℤ → ℝ → ℝ) (n_harmonic : ℕ) (Tobs : ℝ)
    (cat : List Binary) : List (ℝ × ℝ) :=
  cat.map (fun b => (sourceFreq b, sourceSNR noise J n_harmonic Tobs b))

/-- `LISA_SNR` (lines 125-196).  The guard on line 191 is
`if len(SNR_dat.SNR > 1.0) > 1:` - `SNR_dat.SNR > 1.0` is a boolean column
of the same length as the catalog, so the guard compares the number of
catalog rows (not the number of above-threshold rows) with 1: with more
than one catalog row the frame is filtered by `SNR > 1.0`, otherwise an
empty frame is returned. -/
noncomputable def LISA_SNR (noise : ℝ → ℝ) (J : ℤ → ℝ → ℝ) (n_harmonic : ℕ) (Tobs : ℝ)
    (cat : List Binary) : List (ℝ × ℝ) :=
  if 1 < cat.length then
    (LISA_SNR_rows noise J n_harmonic Tobs cat).filter (fun r => decide (1 < r.2))
  else []

/-- `LISA_PSD` (lines 199-263).  The circular branch (lines 249-252) emits
one `(2/porb, h_0**2 * 1/4 * Tobs)` row per circular source.  The eccentric
branch (lines 254-260) evaluates `h_0_squared_ecc * Tobs * peters_g_factor`
on line 256, but `h_0_squared_ecc` (and `GW_freq_flat` on line 260) are not
defined anywhere in `LISA_PSD`, so any catalog containing a source with
`ecc > 0.1` raises a `NameError`; this failure is embedded as `none`. -/
noncomputable def LISA_PSD (noise : ℝ → ℝ) (J : ℤ → ℝ → ℝ) (n_harmonic : ℕ) (Tobs : ℝ)
    (cat : List Binary) : Option (List (ℝ × ℝ)) :=
  if 0 < (cat.filter (fun b => decide (0.1 < b.ecc))).length then none
  else
    some ((cat.filter (fun b => decide (b.ecc ≤ 0.1))).map
      (fun b => (2 / b.porb, h_0 b.m1 b.m2 b.porb b.dist ^ 2 * (1 / 4) * Tobs)))

/-- The ceiling of a rational, written out on the numerator and denominator
(Euclidean integer division) so that it reduces in the kernel; it agrees
with `Int.ceil` (`ratCeil_eq` below). -/
def ratCeil (q : ℚ) : ℤ := -((-q).num / ((-q).den : ℤ))

/-- `np.arange(start, stop, step)`: the grid `start, start+step, ...` with
`max 0 ⌈(stop-start)/step⌉` elements (empty when the step points away from
`stop`, matching numpy).  All arithmetic in `compute_foreground` is exact
decimal/rational, so this part of the embedding lives in `ℚ` and stays
executable. -/
def arange (start stop step : ℚ) : List ℚ :=
  (List.range (Int.toNat (ratCeil ((stop - start) / step)))).map
    (fun i : ℕ => start + (i : ℚ) * step)

/-- `np.digitize(x, bins)` for an increasing `bins` (right-exclusive,
numpy's default): the index `i` with `bins[i-1] <= x < bins[i]`, i.e. the
number of bin edges `<= x`. -/
def digitize (x : ℚ) (bins : List ℚ) : ℕ :=
  (bins.filter (fun b => decide (b ≤ x))).length

/-- `freqBinsLISA = np.arange(5e-4, 1e-2, 1.0/Tobs)` (lines 288-289). -/
def lisaBins (Tobs : ℚ) : List ℚ := arange (5e-4) (1e-2) (1 / Tobs)

/-- One entry of `power_sum = psd_dat[['PSD','digits']].groupby('digits').sum()['PSD']`
(line 292): the summed PSD of the samples whose digitized bin index is `d`. -/
def groupSum (samples : List (ℚ × ℚ)) (bins : List ℚ) (d : ℕ) : ℚ :=
  ((samples.filter (fun s => decide (digitize s.1 bins = d))).map Prod.snd).sum

/-- The result frame of `compute_foreground` (lines 288-297).

`power_tot` has `len(bins)+1` slots and
`power_tot[power_sum.index[:len(bins)-1]] = power_sum` assigns the group
sums at the positions given by the first `len(bins)-1` distinct digit
values; numpy raises a `ValueError` (embedded as `none`) when the number of
distinct digit values `m` both exceeds `len(bins)-1` and is at least 2 (a
length-1 right-hand side broadcasts, so `m = 1` never fails, but with
`len(bins) <= 1` it assigns nothing).  In the non-failing cases, either
every group sum lands at its own digit index (`m <= len(bins)-1`) or
nothing is assigned and `power_tot` stays zero.  The returned rows pair
`freqBinsLISA` with `power_tot[1:]`, so row `i` carries the sum for digit
`i+1`; digit 0 (samples below `5e-4`) is dropped, while the last row
(digit `len(bins)`) receives every sample at or above the last bin edge. -/
def foregroundResult (samples : List (ℚ × ℚ)) (Tobs : ℚ) : Option (List (ℚ × ℚ)) :=
  let bins := lisaBins Tobs
  let m := ((samples.map (fun s => digitize s.1 bins)).dedup).length
  if 2 ≤ m ∧ bins.length - 1 < m then none
  else if m ≤ bins.length - 1 then
    some ((List.range bins.length).map (fun i => (bins.getD i 0, groupSum samples bins (i + 1))))
  else
    some ((List.range bins.length).map (fun i => (bins.getD i 0, 0)))

/-- The input frame `psd_dat`: its `freq`/`PSD` columns as a row list, plus
the `digits` column once `compute_foreground` has added it. -/
structure PsdFrame where
  samples : List (ℚ × ℚ)
  digitsCol : Option (List ℕ)
deriving DecidableEq

/-- `compute_foreground(psd_dat, Tobs)` (lines 265-297), state-passing:
line 291 executes `psd_dat['digits'] = binIndices`, which writes the
digitized bin indices into the caller's frame, so the call returns the
updated input frame together with the foreground table. -/
def compute_foreground (df : PsdFrame) (Tobs : ℚ) : PsdFrame × Option (List (ℚ × ℚ)) :=
  let bins := lisaBins Tobs
  (⟨df.samples, some (df.samples.map (fun s => digitize s.1 bins))⟩,
    foregroundResult df.samples Tobs)

/-! ## Helper lemmas -/

lemma ratCeil_eq (q : ℚ) : ratCeil q = ⌈q⌉ := by
  rw [ratCeil, ← Rat.floor_def, ← Int.ceil_neg, neg_neg]

lemma m_chirp_pos {m1 m2 : ℝ} (h1 : 0 < m1) (h2 : 0 < m2) : 0 < m_chirp m1 m2 := by
  rw [m_chirp]
  exact div_pos (Real.rpow_pos_of_pos (mul_pos h1 h2) _)
    (Real.rpow_pos_of_pos (add_pos h1 h2) _)

lemma G_pos : (0 : ℝ) < G := by rw [G]; norm_num

lemma c_pos : (0 : ℝ) < c := by rw [c]; norm_num

lemma h_0_base_pos {m1 m2 porb : ℝ} (h1 : 0 < m1) (h2 : 0 < m2) (h3 : 0 < porb) :
    0 < G / c ^ 3 * 2 * Real.pi * (1 / porb) * m_chirp m1 m2 :=
  mul_pos (mul_pos (mul_pos (mul_pos (div_pos G_pos (pow_pos c_pos 3)) two_pos)
    Real.pi_pos) (by rw [one_div]; exact inv_pos.mpr h3)) (m_chirp_pos h1 h2)

lemma h_0_pos {m1 m2 porb dist : ℝ} (h1 : 0 < m1) (h2 : 0 < m2) (h3 : 0 < porb)
    (h4 : 0 < dist) : 0 < h_0 m1 m2 porb dist := by
  rw [h_0]
  exact mul_pos
    (div_pos (mul_pos (div_pos (by linarith [G_pos] : (0 : ℝ) < 8 * G) (pow_pos c_pos 2))
      (m_chirp_pos h1 h2)) h4)
    (Real.rpow_pos_of_pos (h_0_base_pos h1 h2 h3) _)

/-! ## C1 -/

/-- C1: the claim says `LISA_SNR` keeps exactly the sources with SNR > 1.0,
and that a one-source catalog whose source has SNR > 1.0 yields a one-row
table.  The guard `len(SNR_dat.SNR > 1.0) > 1` on line 191 instead counts
catalog rows, so every one-source catalog produces the empty table, whatever
its SNR and whatever the noise curve: this theorem evaluates the code on an
arbitrary singleton catalog. -/
theorem LISA_SNR_singleton_empty (noise : ℝ → ℝ) (J : ℤ → ℝ → ℝ) (n_harmonic : ℕ)
    (Tobs : ℝ) (b : Binary) : LISA_SNR noise J n_harmonic Tobs [b] = [] := by
  rw [LISA_SNR]
  simp

/-! ## C2 -/

/-- C2: for every eccentric source (ecc > 0.1) of the catalog, `LISA_SNR`
computes the SNR as the square root of the sum, over harmonics
`n = 1 .. n_harmonic-1`, of `h0² · Tobs · g(n,ecc) / noise(n/porb)²`, with
the noise curve evaluated at `n/porb`, and its row frequency as the
closed-form peak gravitational-wave frequency `peak_gw_freq`. -/
theorem LISA_SNR_eccentric_formula (noise : ℝ → ℝ) (J : ℤ → ℝ → ℝ) (n_harmonic : ℕ)
    (Tobs : ℝ) (cat : List Binary) (b : Binary) (hb : b ∈ cat) (hecc : 0.1 < b.ecc) :
    (sourceFreq b, sourceSNR noise J n_harmonic Tobs b) ∈
        LISA_SNR_rows noise J n_harmonic Tobs cat ∧
      sourceSNR noise J n_harmonic Tobs b =
        Real.sqrt (∑ n ∈ Finset.Ico 1 n_harmonic,
          h_0 b.m1 b.m2 b.porb b.dist ^ 2 * Tobs * peters_g J b.ecc n /
            noise ((n : ℝ) / b.porb) ^ 2) ∧
      sourceFreq b = peak_gw_freq b.m1 b.m2 b.ecc b.porb := by
  refine ⟨List.mem_map_of_mem _ hb, ?_, ?_⟩
  · rw [sourceSNR, if_pos hecc]
  · rw [sourceFreq, if_pos hecc]

/-- Witness for C2 at a concrete eccentric source (ecc = 0.9 > 0.1). -/
theorem LISA_SNR_eccentric_formula_witness :
    ((⟨1, 1, 1000, 0.9, 1⟩ : Binary) ∈ [(⟨1, 1, 1000, 0.9, 1⟩ : Binary)] ∧
        (0.1 : ℝ) < (0.9 : ℝ)) ∧
      ((sourceFreq ⟨1, 1, 1000, 0.9, 1⟩,
          sourceSNR (fun _ => 1) (fun _ _ => 0) 10 4 ⟨1, 1, 1000, 0.9, 1⟩) ∈
          LISA_SNR_rows (fun _ => 1) (fun _ _ => 0) 10 4 [⟨1, 1, 1000, 0.9, 1⟩] ∧
        sourceSNR (fun _ => 1) (fun _ _ => 0) 10 4 ⟨1, 1, 1000, 0.9, 1⟩ =
          Real.sqrt (∑ n ∈ Finset.Ico 1 10,
            h_0 1 1 1000 1 ^ 2 * 4 * peters_g (fun _ _ => 0) 0.9 n / (1 : ℝ) ^ 2) ∧
        sourceFreq ⟨1, 1, 1000, 0.9, 1⟩ = peak_gw_freq 1 1 0.9 1000) :=
  ⟨⟨List.mem_singleton.mpr rfl, by norm_num⟩,
    LISA_SNR_eccentric_formula (fun _ => 1) (fun _ _ => 0) 10 4 _ _
      (List.mem_singleton.mpr rfl) (by norm_num)⟩

/-! ## C3 -/

/-- C3: the claim says the reported circular-source SNR is the square root
of `h0² · (1/4) · Tobs / noise(2/porb)²`.  Line 175 assigns that expression
itself to the `SNR` column, without the `** 0.5` the eccentric branch (line
188) applies, so the reported value is the squared SNR, not its square root;
the reported frequency 2/porb is as claimed.  This theorem evaluates the
code's circular branch. -/
theorem LISA_SNR_circular_value (noise : ℝ → ℝ) (J : ℤ → ℝ → ℝ) (n_harmonic : ℕ)
    (Tobs : ℝ) (b : Binary) (hecc : b.ecc ≤ 0.1) :
    sourceSNR noise J n_harmonic Tobs b =
        h_0 b.m1 b.m2 b.porb b.dist ^ 2 * (1 / 4) * Tobs / noise (2 / b.porb) ^ 2 ∧
      sourceFreq b = 2 / b.porb := by
  constructor
  · rw [sourceSNR, if_neg (not_lt.mpr hecc)]
  · rw [sourceFreq, if_neg (not_lt.mpr hecc)]

/-- Witness for C3 at a concrete circular source (ecc = 0 ≤ 0.1). -/
theorem LISA_SNR_circular_value_witness :
    ((0 : ℝ) ≤ (0.1 : ℝ)) ∧
      (sourceSNR (fun _ => 1) (fun _ _ => 0) 10 4 ⟨1, 1, 1000, 0, 1⟩ =
          h_0 1 1 1000 1 ^ 2 * (1 / 4) * 4 / (1 : ℝ) ^ 2 ∧
        sourceFreq ⟨1, 1, 1000, 0, 1⟩ = 2 / 1000) :=
  ⟨by norm_num,
    LISA_SNR_circular_value (fun _ => 1) (fun _ _ => 0) 10 4 ⟨1, 1, 1000, 0, 1⟩ (by norm_num)⟩

/-! ## C4 -/

/-- C4: the claim says `LISA_PSD` emits `n_harmonic - 1` (freq, PSD) rows
per eccentric source.  The eccentric branch of `LISA_PSD` (line 256) uses
the names `h_0_squared_ecc` and `GW_freq_flat`, which are undefined inside
`LISA_PSD`, so the call raises a `NameError` instead: this theorem
evaluates the code on a catalog holding one source with ecc = 0.9. -/
theorem LISA_PSD_eccentric_crash (noise : ℝ → ℝ) (J : ℤ → ℝ → ℝ) (n_harmonic : ℕ)
    (Tobs : ℝ) (m1 m2 porb dist : ℝ) :
    LISA_PSD noise J n_harmonic Tobs [⟨m1, m2, porb, 0.9, dist⟩] = none := by
  rw [LISA_PSD, if_pos]
  simp [List.filter_cons, decide_eq_true_eq, show (0.1 : ℝ) < (0.9 : ℝ) by norm_num]

/-! ## C5 -/

/-- C5: `peters_gfac ecc n_harmonic` is the length-`n_harmonic - 1` sequence
whose entry for harmonic `n` (stored at position `n - 1`) is
`(n⁴/32) · [ (J_{n-2}(nε) - 2ε·J_{n-1}(nε) + (2/n)·J_n(nε) + 2ε·J_{n+1}(nε)
- J_{n+2}(nε))² + (1-ε²)·(J_{n-2}(nε) - 2·J_n(nε) + J_{n+2}(nε))²
+ (4/(3n²))·J_n(nε)² ] / n²` with `J` the Bessel function of the first
kind. -/
theorem peters_gfac_entries (J : ℤ → ℝ → ℝ) (ecc : ℝ) (n_harmonic : ℕ)
    (h0e : 0 ≤ ecc) (h1e : ecc < 1) (h2 : 2 ≤ n_harmonic) :
    (peters_gfac J ecc n_harmonic).length = n_harmonic - 1 ∧
      ∀ n : ℕ, 1 ≤ n → ∀ hn : n - 1 < (peters_gfac J ecc n_harmonic).length,
        (peters_gfac J ecc n_harmonic).get ⟨n - 1, hn⟩ =
          ((n : ℝ) ^ 4 / 32) *
            ((J ((n : ℤ) - 2) ((n : ℝ) * ecc) - 2 * ecc * J ((n : ℤ) - 1) ((n : ℝ) * ecc) +
                2 / (n : ℝ) * J (n : ℤ) ((n : ℝ) * ecc) +
                2 * ecc * J ((n : ℤ) + 1) ((n : ℝ) * ecc) -
                J ((n : ℤ) + 2) ((n : ℝ) * ecc)) ^ 2 +
              (1 - ecc ^ 2) *
                (J ((n : ℤ) - 2) ((n : ℝ) * ecc) - 2 * J (n : ℤ) ((n : ℝ) * ecc) +
                  J ((n : ℤ) + 2) ((n : ℝ) * ecc)) ^ 2 +
              4 / (3 * (n : ℝ) ^ 2) * J (n : ℤ) ((n : ℝ) * ecc) ^ 2) /
            (n : ℝ) ^ 2 := by
  have hlen : (peters_gfac J ecc n_harmonic).length = n_harmonic - 1 := by
    rw [peters_gfac]
    simp
  refine ⟨hlen, ?_⟩
  intro n h1n hn
  have hn' : n - 1 < n_harmonic - 1 := hlen ▸ hn
  have hval : (peters_gfac J ecc n_harmonic).get ⟨n - 1, hn⟩ =
      peters_g J ecc (1 + 1 * (n - 1)) := by
    simp only [peters_gfac, List.get_eq_getElem, List.getElem_map, List.getElem_range']
  rw [hval, show 1 + 1 * (n - 1) = n by omega, peters_g]

/-- Witness for C5 at ecc = 0, n_harmonic = 2, the zero Bessel oracle. -/
theorem peters_gfac_entries_witness :
    ((0 : ℝ) ≤ 0 ∧ (0 : ℝ) < 1 ∧ 2 ≤ 2) ∧
      ((peters_gfac (fun _ _ => 0) 0 2).length = 2 - 1 ∧
        ∀ n : ℕ, 1 ≤ n → ∀ hn : n - 1 < (peters_gfac (fun _ _ => 0) 0 2).length,
          (peters_gfac (fun _ _ => 0) 0 2).get ⟨n - 1, hn⟩ =
            ((n : ℝ) ^ 4 / 32) *
              (((fun _ _ => (0 : ℝ)) ((n : ℤ) - 2) ((n : ℝ) * 0) -
                  2 * 0 * (fun _ _ => (0 : ℝ)) ((n : ℤ) - 1) ((n : ℝ) * 0) +
                  2 / (n : ℝ) * (fun _ _ => (0 : ℝ)) (n : ℤ) ((n : ℝ) * 0) +
                  2 * 0 * (fun _ _ => (0 : ℝ)) ((n : ℤ) + 1) ((n : ℝ) * 0) -
                  (fun _ _ => (0 : ℝ)) ((n : ℤ) + 2) ((n : ℝ) * 0)) ^ 2 +
                (1 - (0 : ℝ) ^ 2) *
                  ((fun _ _ => (0 : ℝ)) ((n : ℤ) - 2) ((n : ℝ) * 0) -
                    2 * (fun _ _ => (0 : ℝ)) (n : ℤ) ((n : ℝ) * 0) +
                    (fun _ _ => (0 : ℝ)) ((n : ℤ) + 2) ((n : ℝ) * 0)) ^ 2 +
                4 / (3 * (n : ℝ) ^ 2) * (fun _ _ => (0 : ℝ)) (n : ℤ) ((n : ℝ) * 0) ^ 2) /
              (n : ℝ) ^ 2) :=
  ⟨⟨le_rfl, by norm_num, le_rfl⟩,
    peters_gfac_entries (fun _ _ => 0) 0 2 le_rfl (by norm_num) le_rfl⟩

/-! ## C6 -/

/-- C6: every row of the table returned by `LISA_SNR` has SNR strictly
greater than 1.0 — the guard on lines 191-194 either filters by
`SNR > 1.0` or returns the empty table, so no returned row can have
SNR ≤ 1.0. -/
theorem LISA_SNR_rows_above_threshold (noise : ℝ → ℝ) (J : ℤ → ℝ → ℝ) (n_harmonic : ℕ)
    (Tobs : ℝ) (cat : List Binary) (r : ℝ × ℝ)
    (hr : r ∈ LISA_SNR noise J n_harmonic Tobs cat) : 1 < r.2 := by
  rw [LISA_SNR] at hr
  by_cases h : 1 < cat.length
  · rw [if_pos h] at hr
    exact of_decide_eq_true (List.mem_filter.mp hr).2
  · rw [if_neg h] at hr
    exact absurd hr (List.not_mem_nil r)

lemma sourceSNR_circ_unit :
    sourceSNR (fun _ => h_0 1 1 1 1) (fun _ _ => 0) 2 8 ⟨1, 1, 1, 0, 1⟩ = 2 := by
  rw [sourceSNR, if_neg (by norm_num : ¬ (0.1 : ℝ) < (0 : ℝ))]
  have h : h_0 1 1 1 1 ≠ 0 := ne_of_gt (h_0_pos one_pos one_pos one_pos one_pos)
  show h_0 1 1 1 1 ^ 2 * (1 / 4) * 8 / h_0 1 1 1 1 ^ 2 = 2
  field_simp
  ring

lemma sourceFreq_circ_unit : sourceFreq ⟨1, 1, 1, 0, 1⟩ = 2 := by
  rw [sourceFreq, if_neg (by norm_num : ¬ (0.1 : ℝ) < (0 : ℝ))]
  norm_num

/-- Witness for C6: a two-source catalog whose noise curve makes the
circular SNR equal 2, so the output holds a row, and that row's SNR
exceeds 1. -/
theorem LISA_SNR_rows_above_threshold_witness :
    ((2 : ℝ), sourceSNR (fun _ => h_0 1 1 1 1) (fun _ _ => 0) 2 8 ⟨1, 1, 1, 0, 1⟩) ∈
        LISA_SNR (fun _ => h_0 1 1 1 1) (fun _ _ => 0) 2 8 [⟨1, 1, 1, 0, 1⟩, ⟨1, 1, 1, 0, 1⟩] ∧
      (1 : ℝ) <
        ((2 : ℝ), sourceSNR (fun _ => h_0 1 1 1 1) (fun _ _ => 0) 2 8 ⟨1, 1, 1, 0, 1⟩).2 := by
  have hmem : ((2 : ℝ), sourceSNR (fun _ => h_0 1 1 1 1) (fun _ _ => 0) 2 8 ⟨1, 1, 1, 0, 1⟩) ∈
      LISA_SNR (fun _ => h_0 1 1 1 1) (fun _ _ => 0) 2 8 [⟨1, 1, 1, 0, 1⟩, ⟨1, 1, 1, 0, 1⟩] := by
    rw [LISA_SNR, if_pos (by norm_num)]
    refine List.mem_filter.mpr ⟨?_, ?_⟩
    · rw [LISA_SNR_rows]
      simp [sourceFreq_circ_unit]
    · rw [decide_eq_true_eq]
      show (1 : ℝ) < sourceSNR (fun _ => h_0 1 1 1 1) (fun _ _ => 0) 2 8 ⟨1, 1, 1, 0, 1⟩
      rw [sourceSNR_circ_unit]
      norm_num
  exact ⟨hmem,
    LISA_SNR_rows_above_threshold (fun _ => h_0 1 1 1 1) (fun _ _ => 0) 2 8 _ _ hmem⟩

/-! ## C9 -/

/-- C9 counterexample: the claim says the strain computation fails with a
DomainError whenever porb, dist, m1 or m2 is non-positive.  Lines 165-167
contain no validation and numpy raises nothing here: at dist = -1 the code
silently returns a (negative) strain value instead of failing. -/
theorem strain_checked_no_error_on_negative_dist :
    strain_checked 1 1 1 (-1) = Except.ok (h_0 1 1 1 (-1)) ∧ h_0 1 1 1 (-1) < 0 := by
  refine ⟨rfl, ?_⟩
  have hA : 0 < 8 * G / c ^ 2 * m_chirp 1 1 :=
    mul_pos (div_pos (by linarith [G_pos] : (0 : ℝ) < 8 * G) (pow_pos c_pos 2))
      (m_chirp_pos one_pos one_pos)
  have hx : 0 < (G / c ^ 3 * 2 * Real.pi * (1 / 1) * m_chirp 1 1) ^ ((2 : ℝ) / 3) :=
    Real.rpow_pos_of_pos (h_0_base_pos one_pos one_pos one_pos) _
  rw [h_0, show 8 * G / c ^ 2 * m_chirp 1 1 / (-1 : ℝ) *
      (G / c ^ 3 * 2 * Real.pi * (1 / 1) * m_chirp 1 1) ^ ((2 : ℝ) / 3) =
      -(8 * G / c ^ 2 * m_chirp 1 1 *
        (G / c ^ 3 * 2 * Real.pi * (1 / 1) * m_chirp 1 1) ^ ((2 : ℝ) / 3)) by ring]
  exact neg_lt_zero.mpr (mul_pos hA hx)

/-- C9 amended: the code performs no input validation at all — for any
inputs the strain is the closed-form value, never an error — and for
physically valid inputs (all of m1, m2, porb, dist strictly positive) the
computed strain h0 is strictly positive. -/
theorem strain_checked_valid_inputs (m1 m2 porb dist : ℝ) (h1 : 0 < m1) (h2 : 0 < m2)
    (h3 : 0 < porb) (h4 : 0 < dist) :
    strain_checked m1 m2 porb dist = Except.ok (h_0 m1 m2 porb dist) ∧
      0 < h_0 m1 m2 porb dist :=
  ⟨rfl, h_0_pos h1 h2 h3 h4⟩

/-- Witness for C9's amended theorem at m1 = m2 = porb = dist = 1. -/
theorem strain_checked_valid_inputs_witness :
    ((0 : ℝ) < 1) ∧
      (strain_checked 1 1 1 1 = Except.ok (h_0 1 1 1 1) ∧ 0 < h_0 1 1 1 1) :=
  ⟨one_pos, strain_checked_valid_inputs 1 1 1 1 one_pos one_pos one_pos one_pos⟩

/-! ## C10 -/

/-- C10 counterexample: the claim says `compute_foreground` leaves its input
frame unchanged.  Line 291 (`psd_dat['digits'] = binIndices`) writes a new
column into the caller's frame: on a concrete one-sample frame the frame
after the call differs from the frame before it. -/
theorem compute_foreground_mutates_input :
    (compute_foreground ⟨[(3 / 4000, 1)], none⟩ 200).1 ≠ ⟨[(3 / 4000, 1)], none⟩ := by
  simp [compute_foreground]

/-- C10 amended: `compute_foreground` mutates its input frame in exactly one
way — it stores each sample's digitized bin index as a `digits` column —
while the `freq`/`PSD` sample values are left unchanged, and the returned
table is a function of the input samples and Tobs alone. -/
theorem compute_foreground_frame_effect (df : PsdFrame) (Tobs : ℚ) :
    (compute_foreground df Tobs).1.samples = df.samples ∧
      (compute_foreground df Tobs).1.digitsCol =
        some (df.samples.map (fun s => digitize s.1 (lisaBins Tobs))) ∧
      (compute_foreground df Tobs).2 = foregroundResult df.samples Tobs :=
  ⟨rfl, rfl, rfl⟩

/-! ## Foreground helper lemmas -/

lemma lisaBins_eq_nil {Tobs : ℚ} (hstep : 1 / Tobs ≤ 0) : lisaBins Tobs = [] := by
  rw [lisaBins, arange]
  have hq : ((1e-2 : ℚ) - 5e-4) / (1 / Tobs) ≤ 0 :=
    div_nonpos_of_nonneg_of_nonpos (by norm_num) hstep
  have hce : ratCeil (((1e-2 : ℚ) - 5e-4) / (1 / Tobs)) ≤ 0 := by
    rw [ratCeil_eq]
    exact Int.ceil_le.mpr (by exact_mod_cast hq)
  rw [Int.toNat_eq_zero.mpr hce]
  simp

lemma lisaBins_step_pos {Tobs : ℚ} (h2 : 2 ≤ (lisaBins Tobs).length) : 0 < 1 / Tobs := by
  by_contra h
  push_neg at h
  rw [lisaBins_eq_nil h] at h2
  simp at h2

lemma lisaBins_mem_ge {Tobs b : ℚ} (hstep : 0 ≤ 1 / Tobs) (hb : b ∈ lisaBins Tobs) :
    5e-4 ≤ b := by
  rw [lisaBins, arange] at hb
  rcases List.mem_map.mp hb with ⟨i, _, rfl⟩
  have hi : (0 : ℚ) ≤ (i : ℚ) * (1 / Tobs) := mul_nonneg (Nat.cast_nonneg i) hstep
  linarith

lemma lisaBins_head_mem {Tobs : ℚ} (h1 : 1 ≤ (lisaBins Tobs).length) :
    (5e-4 : ℚ) ∈ lisaBins Tobs := by
  rw [lisaBins, arange] at h1 ⊢
  rw [List.length_map, List.length_range] at h1
  exact List.mem_map.mpr ⟨0, List.mem_range.mpr (by omega), by norm_num⟩

lemma digitize_le (x : ℚ) (bins : List ℚ) : digitize x bins ≤ bins.length :=
  List.length_filter_le _ _

lemma digitize_eq_zero_of_lt {Tobs x : ℚ} (hx : x < 5e-4) :
    digitize x (lisaBins Tobs) = 0 := by
  rcases le_or_lt (1 / Tobs) 0 with h | h
  · rw [lisaBins_eq_nil h]
    rfl
  · rw [digitize, List.length_eq_zero, List.filter_eq_nil_iff]
    intro b hb
    rw [decide_eq_true_eq]
    have := lisaBins_mem_ge (le_of_lt h) hb
    intro hle
    linarith

lemma one_le_digitize {Tobs x : ℚ} (h1 : 1 ≤ (lisaBins Tobs).length) (hx : 5e-4 ≤ x) :
    1 ≤ digitize x (lisaBins Tobs) := by
  rw [digitize]
  have hm : (5e-4 : ℚ) ∈ (lisaBins Tobs).filter (fun b => decide (b ≤ x)) :=
    List.mem_filter.mpr ⟨lisaBins_head_mem h1, decide_eq_true hx⟩
  exact List.length_pos.mpr (List.ne_nil_of_mem hm)

lemma one_le_digitize_iff {Tobs x : ℚ} (h2 : 2 ≤ (lisaBins Tobs).length) :
    1 ≤ digitize x (lisaBins Tobs) ↔ 5e-4 ≤ x := by
  constructor
  · intro h
    by_contra hlt
    push_neg at hlt
    rw [digitize_eq_zero_of_lt hlt] at h
    omega
  · exact one_le_digitize (by omega)

lemma sum_map_add_distrib {α : Type} (l : List α) (f g : α → ℚ) :
    (l.map (fun a => f a + g a)).sum = (l.map f).sum + (l.map g).sum := by
  induction l with
  | nil => simp
  | cons a t ih =>
    simp only [List.map_cons, List.sum_cons, ih]
    ring

lemma sum_indicator_range (x : ℚ) (d B : ℕ) (hd : d ≤ B) :
    ((List.range B).map (fun i => if d = i + 1 then x else 0)).sum =
      if 1 ≤ d then x else 0 := by
  induction B with
  | zero =>
    have : d = 0 := by omega
    subst this
    simp
  | succ B ih =>
    rw [List.range_succ, List.map_append, List.sum_append]
    rcases Nat.lt_or_ge d (B + 1) with h | h
    · rw [ih (by omega)]
      simp [show ¬ d = B + 1 by omega]
    · have hdB : d = B + 1 := by omega
      subst hdB
      have hz : ((List.range B).map (fun i => if B + 1 = i + 1 then x else 0)).sum = 0 := by
        apply List.sum_eq_zero
        intro y hy
        rcases List.mem_map.mp hy with ⟨i, hi, rfl⟩
        have : i < B := List.mem_range.mp hi
        simp [show ¬ B + 1 = i + 1 by omega]
      rw [hz]
      simp

lemma groupSum_nil (bins : List ℚ) (d : ℕ) : groupSum [] bins d = 0 := rfl

lemma groupSum_cons (s : ℚ × ℚ) (t : List (ℚ × ℚ)) (bins : List ℚ) (d : ℕ) :
    groupSum (s :: t) bins d =
      (if digitize s.1 bins = d then s.2 else 0) + groupSum t bins d := by
  rw [groupSum, groupSum, List.filter_cons]
  by_cases h : digitize s.1 bins = d
  · simp [h]
  · simp [h]

lemma groupSum_eq_zero (samples : List (ℚ × ℚ)) (bins : List ℚ) (d : ℕ) (hd : d ≠ 0)
    (h : ∀ s ∈ samples, digitize s.1 bins = 0) : groupSum samples bins d = 0 := by
  rw [groupSum]
  have : samples.filter (fun s => decide (digitize s.1 bins = d)) = [] := by
    rw [List.filter_eq_nil_iff]
    intro s hs
    rw [decide_eq_true_eq, h s hs]
    omega
  rw [this]
  rfl

lemma sum_groupSums (bins : List ℚ) (samples : List (ℚ × ℚ)) :
    ((List.range bins.length).map (fun i => groupSum samples bins (i + 1))).sum =
      ((samples.filter (fun s => decide (1 ≤ digitize s.1 bins))).map Prod.snd).sum := by
  induction samples with
  | nil =>
    rw [List.filter_nil, List.map_nil, List.sum_nil]
    apply List.sum_eq_zero
    intro y hy
    rcases List.mem_map.mp hy with ⟨i, _, rfl⟩
    exact groupSum_nil bins (i + 1)
  | cons s t ih =>
    simp only [groupSum_cons]
    rw [sum_map_add_distrib, ih,
      sum_indicator_range s.2 (digitize s.1 bins) bins.length (digitize_le s.1 bins),
      List.filter_cons]
    by_cases h : 1 ≤ digitize s.1 bins
    · rw [if_pos h, if_pos (decide_eq_true h), List.map_cons, List.sum_cons]
    · rw [if_neg h, if_neg (by simpa using h), zero_add]

lemma dedup_length_le_one (l : List ℕ) (h : ∀ x ∈ l, x = 0) : l.dedup.length ≤ 1 := by
  by_contra hlen
  push_neg at hlen
  obtain ⟨a, b, t, hd⟩ : ∃ a b t, l.dedup = a :: b :: t := by
    rcases hd : l.dedup with _ | ⟨a, _ | ⟨b, t⟩⟩
    · rw [hd] at hlen
      simp at hlen
    · rw [hd] at hlen
      simp at hlen
    · exact ⟨a, b, t, rfl⟩
  have hnd := l.nodup_dedup
  rw [hd] at hnd
  have hne : a ≠ b := by
    rcases List.nodup_cons.mp hnd with ⟨hna, _⟩
    intro hab
    exact hna (by rw [hab]; exact List.mem_cons_self b t)
  have ha : a = 0 := h a (List.mem_dedup.mp (by rw [hd]; exact List.mem_cons_self _ _))
  have hb : b = 0 :=
    h b (List.mem_dedup.mp (by rw [hd]; exact List.mem_cons_of_mem _ (List.mem_cons_self _ _)))
  exact hne (by rw [ha, hb])

lemma lisaBins_200 : lisaBins 200 = [1 / 2000, 11 / 2000] := by
  have hc : ratCeil (((1e-2 : ℚ) - 5e-4) / (1 / 200)) = 2 := by
    rw [ratCeil_eq, show (((1e-2 : ℚ) - 5e-4) / (1 / 200)) = 19 / 10 by norm_num,
      Int.ceil_eq_iff]
    constructor <;> norm_num
  rw [lisaBins, arange, hc, show Int.toNat 2 = 2 from rfl,
    show List.range 2 = [0, 1] from rfl]
  norm_num

lemma digitize_pair_one {x b1 b2 : ℚ} (h1 : b1 ≤ x) (h2 : ¬ b2 ≤ x) :
    digitize x [b1, b2] = 1 := by
  rw [digitize, List.filter_cons, List.filter_cons, List.filter_nil,
    decide_eq_true h1, decide_eq_false h2]
  simp

lemma digitize_pair_two {x b1 b2 : ℚ} (h1 : b1 ≤ x) (h2 : b2 ≤ x) :
    digitize x [b1, b2] = 2 := by
  rw [digitize, List.filter_cons, List.filter_cons, List.filter_nil,
    decide_eq_true h1, decide_eq_true h2]
  simp

lemma foregroundResult_out_sample (p : ℚ) :
    foregroundResult [(1 / 50, p)] 200 = some [(1 / 2000, 0), (11 / 2000, p)] := by
  have hdig : digitize (1 / 50) [1 / 2000, 11 / 2000] = 2 :=
    digitize_pair_two (by norm_num) (by norm_num)
  rw [foregroundResult]
  simp only [lisaBins_200, List.map_cons, List.map_nil, hdig]
  rw [show ([2] : List ℕ).dedup = [2] from rfl]
  norm_num [groupSum_cons, groupSum_nil, hdig, show List.range 2 = [0, 1] from rfl]

lemma foregroundResult_in_sample (p : ℚ) :
    foregroundResult [(3 / 4000, p)] 200 = some [(1 / 2000, p), (11 / 2000, 0)] := by
  have hdig : digitize (3 / 4000) [1 / 2000, 11 / 2000] = 1 :=
    digitize_pair_one (by norm_num) (by norm_num)
  rw [foregroundResult]
  simp only [lisaBins_200, List.map_cons, List.map_nil, hdig]
  rw [show ([1] : List ℕ).dedup = [1] from rfl]
  norm_num [groupSum_cons, groupSum_nil, hdig, show List.range 2 = [0, 1] from rfl]

/-! ## C7 -/

/-- C7 counterexample: the claim says every sample with frequency outside
`[5e-4, 1e-2)` Hz is excluded from every bin.  With Tobs = 200 s the grid is
`[1/2000, 11/2000]`, and a lone sample at 1/50 Hz = 0.02 Hz ≥ 1e-2 is
digitized past the last edge and summed into the last output bin, whose PSD
comes out 1, not 0. -/
theorem compute_foreground_out_of_range_sample_binned :
    ¬ ((1 : ℚ) / 50 < 1e-2) ∧
      (compute_foreground ⟨[(1 / 50, 1)], none⟩ 200).2 =
        some [(1 / 2000, 0), (11 / 2000, 1)] :=
  ⟨by norm_num, foregroundResult_out_sample 1⟩

/-- C7 amended: samples below 5×10⁻⁴ Hz are excluded from every bin
(a collection entirely below the range yields all-zero bins, with no
error), but samples at or above the last bin edge — in particular all
samples ≥ 10⁻² Hz — are not excluded: they are summed into the last
output bin. -/
theorem compute_foreground_range_handling :
    (∀ (samples : List (ℚ × ℚ)) (Tobs : ℚ), (∀ s ∈ samples, s.1 < 5e-4) →
        ∃ rows, (compute_foreground ⟨samples, none⟩ Tobs).2 = some rows ∧
          ∀ r ∈ rows, r.2 = 0) ∧
      (compute_foreground ⟨[(1 / 50, 3)], none⟩ 200).2 =
        some [(1 / 2000, 0), (11 / 2000, 3)] := by
  constructor
  · intro samples Tobs hs
    have hdig : ∀ s ∈ samples, digitize s.1 (lisaBins Tobs) = 0 := fun s hs' =>
      digitize_eq_zero_of_lt (hs s hs')
    have hm1 : ((samples.map (fun s => digitize s.1 (lisaBins Tobs))).dedup).length ≤ 1 := by
      apply dedup_length_le_one
      intro x hx
      rcases List.mem_map.mp hx with ⟨s, hs', rfl⟩
      exact hdig s hs'
    show ∃ rows, foregroundResult samples Tobs = some rows ∧ ∀ r ∈ rows, r.2 = 0
    simp only [foregroundResult]
    split
    · next hc1 => exact absurd hc1.1 (by omega)
    · split
      · refine ⟨_, rfl, ?_⟩
        intro r hr
        rcases List.mem_map.mp hr with ⟨i, _, rfl⟩
        exact groupSum_eq_zero samples (lisaBins Tobs) (i + 1) (by omega) hdig
      · refine ⟨_, rfl, ?_⟩
        intro r hr
        rcases List.mem_map.mp hr with ⟨i, _, rfl⟩
        rfl
  · exact foregroundResult_out_sample 3

/-- Witness for C7's amended theorem: a lone sample below the range. -/
theorem compute_foreground_range_handling_witness :
    (∀ s ∈ [((1 / 4000 : ℚ), (7 : ℚ))], s.1 < 5e-4) ∧
      (∃ rows, (compute_foreground ⟨[((1 / 4000 : ℚ), (7 : ℚ))], none⟩ 200).2 = some rows ∧
        ∀ r ∈ rows, r.2 = 0) :=
  ⟨by intro s hs; rw [List.mem_singleton] at hs; rw [hs]; norm_num,
    compute_foreground_range_handling.1 [((1 / 4000 : ℚ), (7 : ℚ))] 200
      (by intro s hs; rw [List.mem_singleton] at hs; rw [hs]; norm_num)⟩

/-! ## C8 -/

/-- C8 counterexample: the claim says the summed output PSD equals the
summed input PSD of the samples inside `[5e-4, 1e-2)`.  A lone sample at
1/50 Hz = 0.02 Hz lies outside that range (so the claimed total is 0), yet
the output bins sum to its PSD 2. -/
theorem compute_foreground_not_conservative :
    (compute_foreground ⟨[(1 / 50, 2)], none⟩ 200).2 =
        some [(1 / 2000, 0), (11 / 2000, 2)] ∧
      (([((1 / 50 : ℚ), (2 : ℚ))].filter
          (fun s => decide ((5e-4 : ℚ) ≤ s.1 ∧ s.1 < 1e-2))).map Prod.snd).sum = 0 ∧
      (([((1 / 2000 : ℚ), (0 : ℚ)), (11 / 2000, 2)].map Prod.snd).sum ≠ 0) := by
  refine ⟨foregroundResult_out_sample 2, ?_, by norm_num⟩
  norm_num [List.filter]

/-- C8 amended: whenever the frequency grid has at least two bins and the
call returns a table (numpy's fancy assignment raises when the distinct
occupied bin indices outnumber the bins minus one), the summed output PSD
equals the summed input PSD over exactly the samples with frequency
≥ 5×10⁻⁴ Hz — samples at or above 10⁻² Hz included, contrary to the
original claim. -/
theorem compute_foreground_total_power (samples : List (ℚ × ℚ)) (Tobs : ℚ)
    (rows : List (ℚ × ℚ)) (h2 : 2 ≤ (lisaBins Tobs).length)
    (hres : (compute_foreground ⟨samples, none⟩ Tobs).2 = some rows) :
    (rows.map Prod.snd).sum =
      ((samples.filter (fun s => decide ((5e-4 : ℚ) ≤ s.1))).map Prod.snd).sum := by
  have hres' : foregroundResult samples Tobs = some rows := hres
  simp only [foregroundResult] at hres'
  split at hres'
  · exact absurd hres' (by simp)
  · split at hres'
    · injection hres' with hrows
      rw [← hrows, List.map_map]
      have hcomp : (Prod.snd ∘ fun i =>
          ((lisaBins Tobs).getD i 0, groupSum samples (lisaBins Tobs) (i + 1))) =
          fun i => groupSum samples (lisaBins Tobs) (i + 1) := rfl
      rw [hcomp, sum_groupSums]
      have hpred : ∀ s ∈ samples,
          (decide (1 ≤ digitize s.1 (lisaBins Tobs))) = (decide ((5e-4 : ℚ) ≤ s.1)) :=
        fun s _ => decide_eq_decide.mpr (one_le_digitize_iff h2)
      rw [List.filter_congr hpred]
    · next hc1 hc2 => omega

/-- Witness for C8's amended theorem: a lone in-range sample at
3/4000 Hz with PSD 5; both sides sum to 5. -/
theorem compute_foreground_total_power_witness :
    (2 ≤ (lisaBins 200).length ∧
        (compute_foreground ⟨[((3 / 4000 : ℚ), (5 : ℚ))], none⟩ 200).2 =
          some [(1 / 2000, 5), (11 / 2000, 0)]) ∧
      (([((1 / 2000 : ℚ), (5 : ℚ)), (11 / 2000, 0)].map Prod.snd).sum =
        (([((3 / 4000 : ℚ), (5 : ℚ))].filter
          (fun s => decide ((5e-4 : ℚ) ≤ s.1))).map Prod.snd).sum) :=
  ⟨⟨by rw [lisaBins_200]; simp, foregroundResult_in_sample 5⟩,
    compute_foreground_total_power [((3 / 4000 : ℚ), (5 : ℚ))] 200
      [((1 / 2000 : ℚ), (5 : ℚ)), (11 / 2000, 0)]
      (by rw [lisaBins_200]; simp) (foregroundResult_in_sample 5)⟩

end GW
